import Mathlib

/-!
Verification of `src/crawler.js` of rippled-network-crawler.

The JavaScript source is shallowly embedded: pure helpers become Lean
functions; the module-level mutable global created by the missing `var`
in `normalizeIpp` becomes explicit state threading; the crawler object
becomes a `CrawlerState` record and the single-threaded event loop a
step relation on a `Sys` record.  JavaScript dictionaries are embedded
as association lists with JS object semantics (update in place keeps
the key's position, a fresh key is appended, `delete` removes it).
-/

/- ------------------------------------------------------------------
   JS value model: the values that flow into ports / peer fields.
   `truthy` mirrors JavaScript truthiness for the cases that occur
   (strings and numbers; `undef` for `undefined`).
------------------------------------------------------------------ -/

inductive JVal where
  | str : String → JVal
  | num : Int → JVal
  | undef : JVal
deriving DecidableEq, Repr

def JVal.truthy : JVal → Bool
  | .str s => s ≠ ""
  | .num n => n ≠ 0
  | .undef => false

/-- String coercion as performed by JS `+` concatenation. -/
def JVal.jToString : JVal → String
  | .str s => s
  | .num n => toString n
  | .undef => "undefined"

/-- JS `a || b`. -/
def jsOr (a b : JVal) : JVal := if a.truthy then a else b

/- ------------------------------------------------------------------
   Constants (crawler.js lines 11-18).
------------------------------------------------------------------ -/

def DEFAULT_PORT : Nat := 51235

/-- JS `s.split(':')` (single-character separator), via the structural
list splitter so that it evaluates by kernel reduction. -/
def jsSplitColon (s : String) : List String :=
  (s.data.splitOn ':').map List.asString

/-- JS `s.indexOf(':') !== -1`. -/
def jsHasColon (s : String) : Bool := s.data.contains ':'

/- ------------------------------------------------------------------
   withDefaultPort (crawler.js lines 37-40).
------------------------------------------------------------------ -/

def withDefaultPort (domainOrIp : String) : String :=
  if jsHasColon domainOrIp then domainOrIp
  else domainOrIp ++ ":" ++ toString DEFAULT_PORT

/- ------------------------------------------------------------------
   normalizeIpp (crawler.js lines 56-68).

   The source assigns `out_ip`, `out_port` and `ipp` WITHOUT `var`,
   so `ipp` is a module-level global: when `ip` is falsy the function
   returns whatever the global `ipp` holds from an earlier call, and
   throws a ReferenceError if it was never assigned.  The global is
   threaded explicitly as `glob : Option String` (`none` = never
   assigned); the returned `Except` is `.error` exactly when the JS
   code throws.  (`out_ip`/`out_port` also leak but are reassigned
   before every read, so they do not influence behaviour.)
------------------------------------------------------------------ -/

def normalizeIpp (ip : Option String) (port : JVal) (glob : Option String) :
    Except String String × Option String :=
  match ip with
  | some s =>
    if s ≠ "" then
      let split := jsSplitColon s
      let splitIp := split.headD ""
      let splitPort : JVal :=
        match split.get? 1 with
        | some t => .str t
        | none => .undef
      let out_port := jsOr port (jsOr splitPort (.num (Int.ofNat DEFAULT_PORT)))
      let ipp := splitIp ++ ":" ++ out_port.jToString
      (.ok ipp, some ipp)
    else
      match glob with
      | some g => (.ok g, some g)
      | none => (.error "ReferenceError: ipp is not defined", none)
  | none =>
    match glob with
    | some g => (.ok g, some g)
    | none => (.error "ReferenceError: ipp is not defined", none)

/- ------------------------------------------------------------------
   normalizePubKey (crawler.js lines 42-50).

   The base64 decoder (`sjcl.codec.base64` / `sjcl.codec.bytes`) and
   the base58-check encoder (`ripple.Base.encode_check` with
   `VER_NODE_PUBLIC`) are external library collaborators, not part of
   this repository; they are abstracted as a codec record.  `toBitsBytes`
   returns `none` when the decoder throws on malformed base64.
------------------------------------------------------------------ -/

structure PubKeyCodec where
  toBitsBytes : String → Option (List Nat)
  encodeCheck : List Nat → String

/-- "already canonical": `pubKeyStr.length > 50 && pubKeyStr[0] == 'n'`. -/
def isCanonicalKey (s : String) : Prop := 50 < s.length ∧ s.front = 'n'

instance (s : String) : Decidable (isCanonicalKey s) := by
  unfold isCanonicalKey; infer_instance

def normalizePubKey (c : PubKeyCodec) (pubKeyStr : String) : Option String :=
  if isCanonicalKey pubKeyStr then
    some pubKeyStr
  else
    (c.toBitsBytes pubKeyStr).map c.encodeCheck

/- ------------------------------------------------------------------
   Association lists with JS-object semantics.

   `alookup` is property read (`obj[k]`, `undefined` = `none`),
   `aset` is property write (in-place update keeps the key's position,
   a fresh key is appended, matching JS insertion order for
   non-integer string keys), `aerase` is `delete obj[k]`.
------------------------------------------------------------------ -/

def alookup {α : Type} (l : List (String × α)) (k : String) : Option α :=
  match l with
  | [] => none
  | (k', v) :: t => if k' = k then some v else alookup t k

def aset {α : Type} (l : List (String × α)) (k : String) (v : α) :
    List (String × α) :=
  match l with
  | [] => [(k, v)]
  | (k', v') :: t => if k' = k then (k', v) :: t else (k', v') :: aset t k v

def aerase {α : Type} (l : List (String × α)) (k : String) :
    List (String × α) :=
  match l with
  | [] => []
  | (k', v') :: t => if k' = k then t else (k', v') :: aerase t k

theorem alookup_aset {α : Type} (l : List (String × α)) (k : String) (v : α) :
    alookup (aset l k v) k = some v := by
  induction l with
  | nil => simp [aset, alookup]
  | cons h t ih =>
    by_cases hk : h.1 = k <;> simp [aset, alookup, hk, ih]

theorem alookup_aset_ne {α : Type} (l : List (String × α)) (k k' : String)
    (v : α) (h : k ≠ k') : alookup (aset l k v) k' = alookup l k' := by
  induction l with
  | nil =>
    simp only [aset, alookup]
    rw [if_neg h]
  | cons hd t ih =>
    by_cases hk : hd.1 = k
    · have h1 : hd.1 ≠ k' := by rw [hk]; exact h
      simp only [aset, if_pos hk, alookup, if_neg h1]
    · by_cases hk' : hd.1 = k'
      · simp only [aset, if_neg hk, alookup, if_pos hk']
      · simp only [aset, if_neg hk, alookup, if_neg hk', ih]

theorem alookup_eq_none_of_not_mem {α : Type} (l : List (String × α))
    (k : String) (h : k ∉ l.map Prod.fst) : alookup l k = none := by
  induction l with
  | nil => rfl
  | cons hd t ih =>
    simp only [List.map_cons, List.mem_cons, not_or] at h
    have h1 : hd.1 ≠ k := fun he => h.1 he.symm
    simp [alookup, h1, ih h.2]

theorem alookup_aerase {α : Type} (l : List (String × α)) (k : String)
    (hnd : (l.map Prod.fst).Nodup) : alookup (aerase l k) k = none := by
  induction l with
  | nil => rfl
  | cons hd t ih =>
    simp only [List.map_cons, List.nodup_cons] at hnd
    by_cases hk : hd.1 = k
    · simp only [aerase, if_pos hk]
      exact alookup_eq_none_of_not_mem t k (hk ▸ hnd.1)
    · simp [aerase, alookup, hk, ih hnd.2]

theorem alookup_aerase_ne {α : Type} (l : List (String × α)) (k k' : String)
    (h : k ≠ k') : alookup (aerase l k) k' = alookup l k' := by
  induction l with
  | nil => rfl
  | cons hd t ih =>
    by_cases hk : hd.1 = k
    · have h1 : hd.1 ≠ k' := by rw [hk]; exact h
      simp only [aerase, if_pos hk, alookup, if_neg h1]
    · by_cases hk' : hd.1 = k'
      · simp only [aerase, if_neg hk, alookup, if_pos hk']
      · simp only [aerase, if_neg hk, alookup, if_neg hk', ih]

theorem aset_keys_of_mem {α : Type} (l : List (String × α)) (k : String)
    (v : α) (h : (alookup l k).isSome) :
    (aset l k v).map Prod.fst = l.map Prod.fst := by
  induction l with
  | nil => simp [alookup] at h
  | cons hd t ih =>
    by_cases hk : hd.1 = k
    · simp [aset, hk]
    · simp only [alookup, if_neg hk] at h
      simp [aset, hk, ih h]

theorem aset_keys {α : Type} (l : List (String × α)) (k : String) (v : α) :
    (aset l k v).map Prod.fst = l.map Prod.fst ∨
    (aset l k v).map Prod.fst = l.map Prod.fst ++ [k] := by
  induction l with
  | nil => simp [aset]
  | cons hd t ih =>
    by_cases hk : hd.1 = k
    · left; simp [aset, hk]
    · rcases ih with h | h
      · left; simp [aset, hk, h]
      · right; simp [aset, hk, h]

theorem aset_nodup {α : Type} (l : List (String × α)) (k : String) (v : α)
    (hnd : (l.map Prod.fst).Nodup) : ((aset l k v).map Prod.fst).Nodup := by
  induction l with
  | nil => simp [aset]
  | cons hd t ih =>
    simp only [List.map_cons, List.nodup_cons] at hnd
    by_cases hk : hd.1 = k
    · simp only [aset, if_pos hk, List.map_cons, List.nodup_cons]
      exact ⟨hk ▸ hnd.1, hnd.2⟩
    · simp only [aset, if_neg hk, List.map_cons, List.nodup_cons]
      refine ⟨?_, ih hnd.2⟩
      intro hmem
      rcases aset_keys t k v with h | h
      · exact hnd.1 (h ▸ hmem)
      · rw [h] at hmem
        rcases List.mem_append.1 hmem with h1 | h1
        · exact hnd.1 h1
        · simp at h1; exact hk h1

theorem aerase_keys_sublist {α : Type} (l : List (String × α)) (k : String) :
    ((aerase l k).map Prod.fst).Sublist (l.map Prod.fst) := by
  induction l with
  | nil => simp [aerase]
  | cons hd t ih =>
    by_cases hk : hd.1 = k
    · rw [show aerase (hd :: t) k = t by simp [aerase, hk]]
      simp only [List.map_cons]
      exact List.sublist_cons_self hd.1 (t.map Prod.fst)
    · rw [show aerase (hd :: t) k = hd :: aerase t k by simp [aerase, hk]]
      simp only [List.map_cons]
      exact ih.cons₂ hd.1

theorem aerase_nodup {α : Type} (l : List (String × α)) (k : String)
    (hnd : (l.map Prod.fst).Nodup) : ((aerase l k).map Prod.fst).Nodup :=
  (aerase_keys_sublist l k).nodup hnd

theorem alookup_isSome_of_mem_keys {α : Type} (l : List (String × α))
    (k : String) (h : k ∈ l.map Prod.fst) : (alookup l k).isSome := by
  induction l with
  | nil => simp at h
  | cons hd t ih =>
    by_cases hk : hd.1 = k
    · simp [alookup, hk]
    · simp only [List.map_cons, List.mem_cons] at h
      rcases h with h | h
      · exact absurd h.symm hk
      · simp [alookup, hk, ih h]

theorem mem_keys_of_alookup_isSome {α : Type} (l : List (String × α))
    (k : String) (h : (alookup l k).isSome) : k ∈ l.map Prod.fst := by
  induction l with
  | nil => simp [alookup] at h
  | cons hd t ih =>
    simp only [List.map_cons, List.mem_cons]
    by_cases hk : hd.1 = k
    · exact Or.inl hk.symm
    · simp only [alookup, if_neg hk] at h
      exact Or.inr (ih h)

/- ------------------------------------------------------------------
   Decoded response body: the controller reads only `body.overlay.active`,
   a list of peer descriptors each carrying `ip` and `port` fields
   (crawler.js line 122).
------------------------------------------------------------------ -/

structure Peer where
  ip : Option String
  port : JVal
deriving DecidableEq, Repr

structure Overlay where
  active : List Peer
deriving DecidableEq, Repr

structure Body where
  overlay : Overlay
deriving DecidableEq, Repr

inductive ReqStatus where
  | QUEUED
  | REQUESTING
deriving DecidableEq, Repr

/- ------------------------------------------------------------------
   Crawler instance state (constructor, crawler.js lines 72-81), with
   the fields `enter`/`crawl` add later (startTime, endTime, entryIP).
   Timestamps are drawn from a logical clock (see Sys below).
------------------------------------------------------------------ -/

structure CrawlerState where
  maxRequests : Int
  currentRequests : Int
  rawResponses : List (String × Body)
  queued : List (String × ReqStatus)
  errors : List (String × Int)
  peersData : List (String × List (String × JVal))
  startTime : Option Nat
  endTime : Option Nat
  entryIP : Option String
deriving DecidableEq, Repr

/-- `new Crawler(maxRequests, logger)`: `maxRequests ? maxRequests : 30`
(the argument is a request count; `0`/absent fall back to 30). -/
def mkCrawler (maxRequests : Option Nat) : CrawlerState :=
  { maxRequests := match maxRequests with
      | some m => if m ≠ 0 then (m : Int) else 30
      | none => 30
    currentRequests := 0
    rawResponses := []
    queued := []
    errors := []
    peersData := []
    startTime := none
    endTime := none
    entryIP := none }

/-- Payload of the `'done'` event (crawler.js lines 130-135). The JS key
`end` is spelled `endT` (`end` is a Lean keyword). -/
structure SessionReport where
  start : Option Nat
  endT : Option Nat
  entry : Option String
  data : List (String × Body)
  errors : List (String × Int)
deriving DecidableEq, Repr

def mkReport (cr : CrawlerState) : SessionReport :=
  { start := cr.startTime
    endT := cr.endTime
    entry := cr.entryIP
    data := cr.rawResponses
    errors := cr.errors }

/- ------------------------------------------------------------------
   Outcome of running a synchronous piece of the crawler: normal
   return, `process.exit()` (the DEBUG branch of abortIfNot), or a
   thrown exception.
------------------------------------------------------------------ -/

inductive Outcome (α : Type) where
  | ok : α → Outcome α
  | processExit : String → Outcome α
  | thrown : String → Outcome α
deriving DecidableEq, Repr

def Outcome.bind {α β : Type} : Outcome α → (α → Outcome β) → Outcome β
  | .ok a, f => f a
  | .processExit m, _ => .processExit m
  | .thrown m, _ => .thrown m

instance : Monad Outcome where
  pure := Outcome.ok
  bind := Outcome.bind

/- ------------------------------------------------------------------
   abortIfNot (crawler.js lines 22-31), parametrized by the DEBUG
   module constant: DEBUG=true logs and calls process.exit(),
   DEBUG=false throws `new Error(message)`.
------------------------------------------------------------------ -/

def abortIfNot (debug : Bool) (expression : Bool) (message : String) :
    Outcome Unit :=
  if expression then .ok ()
  else if debug then .processExit message
  else .thrown message

/- ------------------------------------------------------------------
   Queue primitives (crawler.js lines 215-233).
------------------------------------------------------------------ -/

def enqueue (debug : Bool) (cr : CrawlerState) (ipp : String) :
    Outcome CrawlerState := do
  abortIfNot debug (alookup cr.queued ipp).isNone "queued already"
  pure { cr with queued := aset cr.queued ipp .QUEUED }

def dequeue (debug : Bool) (cr : CrawlerState) (ipp : String) :
    Outcome CrawlerState := do
  abortIfNot debug (alookup cr.queued ipp).isSome "not queued already"
  pure { cr with queued := aerase cr.queued ipp }

/-- `enqueueIfNeeded` (lines 215-223): its argument is the value returned
by `normalizeIpp`, which in JS is a string when present (`none` stands
for `undefined`; `""` is likewise falsy). -/
def enqueueIfNeeded (debug : Bool) (cr : CrawlerState) (ipp : Option String) :
    Outcome CrawlerState :=
  match ipp with
  | none => .ok cr
  | some s =>
    if s = "" then .ok cr
    else if (alookup cr.rawResponses s).isNone &&
            (alookup cr.queued s).isNone &&
            (alookup cr.errors s).isNone then
      enqueue debug cr s
    else .ok cr

/- ------------------------------------------------------------------
   savePeerData (crawler.js lines 152-164).  A peer view is an ordered
   list of (field, value) pairs (`_.forOwn` visits own keys in JS
   insertion order); a field is skipped iff it is `'type'` or
   `defaults` is truthy and the field is already set.
------------------------------------------------------------------ -/

def savePeerFields (defaults : Bool) (map : List (String × JVal))
    (data : List (String × JVal)) : List (String × JVal) :=
  data.foldl
    (fun m kv =>
      if kv.1 = "type" || (defaults && (alookup m kv.1).isSome) then m
      else aset m kv.1 kv.2)
    map

def savePeerData (cr : CrawlerState) (pk : String)
    (data : List (String × JVal)) (defaults : Bool) : CrawlerState :=
  let map := (alookup cr.peersData pk).getD []
  { cr with peersData := aset cr.peersData pk (savePeerFields defaults map data) }

/- ------------------------------------------------------------------
   One traversal as a state machine.  `Sys` holds the crawler instance,
   the multiset of issued-but-unresolved fetches (ip:port, hops), the
   module-level global `ipp` of normalizeIpp, a logical clock standing
   in for `moment().format()`, and the payloads of 'done' events
   emitted so far.  Every synchronous run-to-completion block of the
   JS event loop becomes one function below.
------------------------------------------------------------------ -/

structure Sys where
  cr : CrawlerState
  inflight : List (String × Nat)
  globalIpp : Option String
  clock : Nat
  doneEvents : List SessionReport
deriving DecidableEq, Repr

def initSys (maxRequests : Option Nat) : Sys :=
  { cr := mkCrawler maxRequests
    inflight := []
    globalIpp := none
    clock := 0
    doneEvents := [] }

/-- The synchronous part of `crawl(ipp, hops)` (lines 107-111): mark the
address REQUESTING, then `crawlOne` (line 171) increments the in-flight
counter and issues the HTTP request, which resolves in a later turn. -/
def crawlStep (ipp : String) (hops : Nat) (s : Sys) : Sys :=
  { s with
    cr := { s.cr with
      queued := aset s.cr.queued ipp .REQUESTING
      currentRequests := s.cr.currentRequests + 1 }
    inflight := s.inflight ++ [(ipp, hops)] }

/-- `enter(ip)` (lines 97-101). -/
def enter (ip : String) (s : Sys) : Sys :=
  let s1 : Sys :=
    { s with
      cr := { s.cr with
        startTime := some s.clock
        entryIP := some (withDefaultPort ip) }
      clock := s.clock + 1 }
  crawlStep (withDefaultPort ip) 0 s1

/-- The `body.overlay.active.forEach` loop of the crawl callback
(lines 122-124): each peer is normalized (threading the leaked global)
and offered to `enqueueIfNeeded`. -/
def processPeers (debug : Bool) : List Peer → Sys → Outcome Sys
  | [], s => .ok s
  | p :: ps, s =>
    let r := normalizeIpp p.ip p.port s.globalIpp
    match r.1 with
    | .error m => .thrown m
    | .ok ippStr =>
      match enqueueIfNeeded debug s.cr (some ippStr) with
      | .ok cr => processPeers debug ps { s with cr := cr, globalIpp := r.2 }
      | .processExit m => .processExit m
      | .thrown m => .thrown m

/-- The `ipps.forEach` admission loop of `requestMore` (lines 199-207):
the key snapshot is fixed, but the counter and each key's status are
re-read at every iteration (the `return false` inside `forEach` does
not break the loop; the guard alone stops admission). -/
def admitLoop (hops : Nat) (keys : List String) (s : Sys) : Sys :=
  match keys with
  | [] => s
  | k :: rest =>
    let s' :=
      if s.cr.currentRequests < s.cr.maxRequests ∧
         alookup s.cr.queued k = some .QUEUED then
        crawlStep k hops s
      else s
    admitLoop hops rest s'

/-- `requestMore(hops)` (lines 195-210): admits queued addresses via
`crawl(queuedIpp, hops + 1)` and returns `ipps.length !== 0` computed
on the snapshot taken before admission. -/
def requestMore (hops : Nat) (s : Sys) : Bool × Sys :=
  let keys := s.cr.queued.map Prod.fst
  (keys.length != 0, admitLoop (hops + 1) keys s)

/-- Termination handling (lines 128-136): `endTime = moment().format()`
followed by `emit('done', {...})` with the session report. -/
def emitDone (s : Sys) : Sys :=
  { s with
    cr := { s.cr with endTime := some s.clock }
    clock := s.clock + 1
    doneEvents := s.doneEvents ++
      [mkReport { s.cr with endTime := some s.clock }] }

/-- Resolution of one outstanding fetch: the `crawlRequest` callback
wrapper in `crawlOne` (lines 173-177) decrements the counter, then the
`crawl` callback (lines 111-137) dequeues, records the error or the raw
body plus newly discovered peers, refills via `requestMore`, and emits
'done' when the queue snapshot was empty. -/
def completeStep (debug : Bool) (ipp : String) (hops : Nat)
    (resp : Except Int Body) (s : Sys) : Outcome Sys :=
  match dequeue debug
      { s.cr with currentRequests := s.cr.currentRequests - 1 } ipp with
  | .processExit m => .processExit m
  | .thrown m => .thrown m
  | .ok cr2 =>
    match (match resp with
      | .error code =>
        Outcome.ok { s with cr := { cr2 with
          errors := aset cr2.errors ipp code } }
      | .ok body =>
        processPeers debug body.overlay.active
          { s with cr := { cr2 with
            rawResponses := aset cr2.rawResponses ipp body } }) with
    | .processExit m => .processExit m
    | .thrown m => .thrown m
    | .ok s3 =>
      if (requestMore hops s3).1 then .ok (requestMore hops s3).2
      else .ok (emitDone (requestMore hops s3).2)

/-- One turn of the event loop: some outstanding fetch resolves (with an
arbitrary error code or decoded body — the transport is external) and
its callback runs to completion without crashing. -/
inductive SysStep (debug : Bool) : Sys → Sys → Prop where
  | complete (ipp : String) (hops : Nat) (resp : Except Int Body)
      (s s' : Sys) :
      (ipp, hops) ∈ s.inflight →
      completeStep debug ipp hops resp
        { s with inflight := s.inflight.erase (ipp, hops) } = .ok s' →
      SysStep debug s s'

/-- States of one traversal: a fresh crawler entered at `entryIp`,
then any number of event-loop turns. -/
inductive Reachable (debug : Bool) (maxRequests : Option Nat)
    (entryIp : String) : Sys → Prop where
  | start : Reachable debug maxRequests entryIp
      (enter entryIp (initSys maxRequests))
  | step {s s' : Sys} : Reachable debug maxRequests entryIp s →
      SysStep debug s s' → Reachable debug maxRequests entryIp s'

/- ------------------------------------------------------------------
   Spec-side definitions, written from the specification's words, to
   compare against the embedded source functions.
------------------------------------------------------------------ -/

/-- The port the spec prescribes for `normalizeAddress`: the explicit
parameter when truthy, otherwise the port embedded in the raw host,
otherwise the fixed default port. -/
def specPortChoice (explicitPort : JVal) (embedded : Option String) : String :=
  if explicitPort.truthy then explicitPort.jToString
  else
    match embedded with
    | some t => if t ≠ "" then t else toString DEFAULT_PORT
    | none => toString DEFAULT_PORT

/-- JS falsiness of `normalizeIpp`'s result as seen by `enqueueIfNeeded`:
`undefined` or the empty string. -/
def jsFalsy (a : Option String) : Prop := a = none ∨ a = some ""

theorem toString_int_defaultPort :
    toString (Int.ofNat DEFAULT_PORT) = toString DEFAULT_PORT := by decide

/- ------------------------------------------------------------------
   C1
------------------------------------------------------------------ -/

/-- C1: for every call of `normalizeIpp` with a non-empty `ip`, the
returned Address is `host:port` where the port follows the precedence
explicit argument (if truthy) > port embedded after ':' in `ip` (if
truthy) > fixed default port; in particular
`normalizeIpp("10.0.0.1", undefined) = "10.0.0.1:51235"`,
`normalizeIpp("10.0.0.1:6561", undefined) = "10.0.0.1:6561"`, and
`normalizeIpp("10.0.0.1", "8080") = "10.0.0.1:8080"` — whatever the
state of the module-level global. -/
theorem normalizeIpp_port_precedence (ip : String) (hip : ip ≠ "")
    (port : JVal) (glob : Option String) :
    (normalizeIpp (some ip) port glob).1 =
      .ok ((jsSplitColon ip).headD "" ++ ":" ++
        specPortChoice port ((jsSplitColon ip).get? 1)) ∧
    (normalizeIpp (some "10.0.0.1") .undef glob).1 = .ok "10.0.0.1:51235" ∧
    (normalizeIpp (some "10.0.0.1:6561") .undef glob).1 = .ok "10.0.0.1:6561" ∧
    (normalizeIpp (some "10.0.0.1") (.str "8080") glob).1 = .ok "10.0.0.1:8080" := by
  refine ⟨?_, rfl, rfl, rfl⟩
  simp only [normalizeIpp, if_pos hip]
  refine congrArg (fun p => Except.ok ((jsSplitColon ip).headD "" ++ ":" ++ p)) ?_
  cases hp : port.truthy with
  | true => simp only [jsOr, specPortChoice, hp, if_true]
  | false =>
    simp only [jsOr, specPortChoice, hp, Bool.false_eq_true, if_false]
    cases hsp : (jsSplitColon ip).get? 1 with
    | none =>
      simp only [JVal.truthy, JVal.jToString]
      exact toString_int_defaultPort
    | some t =>
      by_cases ht : t = ""
      · subst ht
        decide
      · simp [ht, JVal.truthy, JVal.jToString]

/-- Witness for C1 at `ip = "10.0.0.1:6561"`. -/
theorem normalizeIpp_port_precedence_witness :
    (normalizeIpp (some "10.0.0.1:6561") .undef none).1 =
      .ok ((jsSplitColon "10.0.0.1:6561").headD "" ++ ":" ++
        specPortChoice .undef ((jsSplitColon "10.0.0.1:6561").get? 1)) :=
  (normalizeIpp_port_precedence "10.0.0.1:6561" (by decide) .undef none).1

/- ------------------------------------------------------------------
   C2
------------------------------------------------------------------ -/

/-- C2 (code bug): because `ipp` in `normalizeIpp` is assigned without
`var`, a call with an absent `rawHost` does NOT return
empty/undefined: it returns the stale result of the previous call
(here `"10.0.0.1:8080"`), so the result depends on earlier calls; and
on a fresh module (global never assigned) the same call throws a
ReferenceError instead of returning undefined. -/
theorem normalizeIpp_stale_global_bug :
    (normalizeIpp none .undef
        (normalizeIpp (some "10.0.0.1") (.str "8080") none).2).1 =
      .ok "10.0.0.1:8080" ∧
    (normalizeIpp none .undef none).1 =
      .error "ReferenceError: ipp is not defined" := by
  exact ⟨rfl, rfl⟩

/- ------------------------------------------------------------------
   C3
------------------------------------------------------------------ -/

/-- C3: `normalizePubKey` is idempotent on every input on which it
succeeds, given that the external base58-check encoder only produces
canonical keys (length > 50, first character `'n'` — the property the
spec ascribes to node-public-key encoding); and every canonical result
is returned unchanged when normalized again (the pass-through branch,
which holds unconditionally). -/
theorem normalizePubKey_idempotent (c : PubKeyCodec)
    (henc : ∀ bytes, isCanonicalKey (c.encodeCheck bytes)) :
    (∀ k r, normalizePubKey c k = some r → normalizePubKey c r = some r) ∧
    (∀ s, isCanonicalKey s → normalizePubKey c s = some s) := by
  have pass : ∀ s, isCanonicalKey s → normalizePubKey c s = some s := by
    intro s hs
    simp [normalizePubKey, if_pos hs]
  refine ⟨?_, pass⟩
  intro k r h
  by_cases hc : isCanonicalKey k
  · rw [normalizePubKey, if_pos hc] at h
    cases h
    exact pass k hc
  · rw [normalizePubKey, if_neg hc] at h
    rcases Option.map_eq_some'.1 h with ⟨bs, _, hbs⟩
    exact pass r (hbs ▸ henc bs)

/-- A concrete codec whose encoder emits one fixed canonical key. -/
def pkCodec0 : PubKeyCodec :=
  { toBitsBytes := fun _ => some []
    encodeCheck := fun _ => "n9KaaBadBadBadBadBadBadBadBadBadBadBadBadBadBadBadZ" }

/-- Witness for C3: at the concrete codec `pkCodec0` and input `"AA=="`,
normalization succeeds and renormalizing its result is the identity. -/
theorem normalizePubKey_idempotent_witness :
    normalizePubKey pkCodec0
        "n9KaaBadBadBadBadBadBadBadBadBadBadBadBadBadBadBadZ" =
      some "n9KaaBadBadBadBadBadBadBadBadBadBadBadBadBadBadBadZ" :=
  (normalizePubKey_idempotent pkCodec0
      (fun _ =>
        (by decide :
          isCanonicalKey
            "n9KaaBadBadBadBadBadBadBadBadBadBadBadBadBadBadBadZ"))).1
    "AA==" "n9KaaBadBadBadBadBadBadBadBadBadBadBadBadBadBadBadZ" (by decide)

/- ------------------------------------------------------------------
   C4
------------------------------------------------------------------ -/

/-- C4: `enqueueIfNeeded(addr)` is a no-op (queue, results and errors
maps all unchanged) when `addr` is falsy or already present in any of
the results/errors/queue maps; otherwise it transitions `addr` to
Queued (and touches nothing else).  Consequently an address discovered
again is never enqueued twice: a repeated call is a no-op. -/
theorem enqueueIfNeeded_spec (debug : Bool) (cr : CrawlerState)
    (a : Option String) :
    (jsFalsy a → enqueueIfNeeded debug cr a = .ok cr) ∧
    (∀ s, a = some s → s ≠ "" →
      ((alookup cr.rawResponses s).isSome ∨ (alookup cr.queued s).isSome ∨
        (alookup cr.errors s).isSome) →
      enqueueIfNeeded debug cr a = .ok cr) ∧
    (∀ s, a = some s → s ≠ "" →
      (alookup cr.rawResponses s).isNone → (alookup cr.queued s).isNone →
      (alookup cr.errors s).isNone →
      enqueueIfNeeded debug cr a =
        .ok { cr with queued := aset cr.queued s .QUEUED }) ∧
    (∀ cr', enqueueIfNeeded debug cr a = .ok cr' →
      enqueueIfNeeded debug cr' a = .ok cr') := by
  refine ⟨?_, ?_, ?_, ?_⟩
  · rintro (rfl | rfl)
    · rfl
    · simp [enqueueIfNeeded]
  · rintro s rfl hs hmem
    have hguard : ((alookup cr.rawResponses s).isNone &&
        (alookup cr.queued s).isNone && (alookup cr.errors s).isNone) = false := by
      rcases hmem with h | h | h <;>
        simp [Option.isNone_iff_eq_none, Option.isSome_iff_exists] at h ⊢ <;>
        rcases h with ⟨v, hv⟩ <;> simp [hv]
    simp [enqueueIfNeeded, hs, hguard]
  · rintro s rfl hs h1 h2 h3
    simp [enqueueIfNeeded, hs, h1, h2, h3, enqueue, abortIfNot,
      Outcome.bind, pure, bind]
  · intro cr' h
    match a with
    | none =>
      cases h
      simp [enqueueIfNeeded]
    | some s =>
      by_cases hs : s = ""
      · rw [enqueueIfNeeded, if_pos hs] at h
        cases h
        rw [enqueueIfNeeded, if_pos hs]
      · rw [enqueueIfNeeded, if_neg hs] at h ⊢
        rcases hguard : ((alookup cr.rawResponses s).isNone &&
            (alookup cr.queued s).isNone && (alookup cr.errors s).isNone) with _ | _
        · rw [if_neg (by simp [hguard])] at h
          cases h
          rw [if_neg (by simp [hguard])]
        · rw [if_pos (by simp [hguard])] at h
          have hq : (alookup cr.queued s).isNone := by
            simp only [Bool.and_eq_true] at hguard
            exact hguard.1.2
          rw [enqueue, abortIfNot, if_pos (by simp [hq])] at h
          have : cr' = { cr with queued := aset cr.queued s .QUEUED } := by
            cases h
            rfl
          subst this
          rw [if_neg]
          simp [alookup_aset]

/-- Witness for C4: on a fresh crawler, a first discovery enqueues the
address and a second discovery of the same address is a no-op. -/
theorem enqueueIfNeeded_spec_witness :
    enqueueIfNeeded true (mkCrawler none) (some "10.0.0.1:51235") =
      .ok { mkCrawler none with
        queued := aset (mkCrawler none).queued "10.0.0.1:51235" .QUEUED } ∧
    enqueueIfNeeded true
        { mkCrawler none with
          queued := aset (mkCrawler none).queued "10.0.0.1:51235" .QUEUED }
        (some "10.0.0.1:51235") =
      .ok { mkCrawler none with
        queued := aset (mkCrawler none).queued "10.0.0.1:51235" .QUEUED } := by
  have h1 := (enqueueIfNeeded_spec true (mkCrawler none)
    (some "10.0.0.1:51235")).2.2.1 "10.0.0.1:51235" rfl (by decide)
    (by decide) (by decide) (by decide)
  exact ⟨h1, (enqueueIfNeeded_spec true (mkCrawler none)
    (some "10.0.0.1:51235")).2.2.2 _ h1⟩

/- ------------------------------------------------------------------
   C5
------------------------------------------------------------------ -/

/-- C5: `enqueue` on an already-tracked address, and `dequeue` on an
untracked one, are fatal contract violations: with DEBUG (debug build)
the process exits after logging, without DEBUG (production) a
structured `Error` is thrown.  The outcome is exactly
`processExit`/`thrown` — never `ok` — so no crawler state survives the
violation: nothing is swallowed and nothing is recorded in the
per-node errors map. -/
theorem enqueue_dequeue_contract (debug : Bool) (cr : CrawlerState)
    (a : String) :
    ((alookup cr.queued a).isSome →
      enqueue debug cr a =
        if debug then .processExit "queued already"
        else .thrown "queued already") ∧
    ((alookup cr.queued a).isNone →
      dequeue debug cr a =
        if debug then .processExit "not queued already"
        else .thrown "not queued already") ∧
    (∀ cr', (alookup cr.queued a).isSome → enqueue debug cr a ≠ .ok cr') ∧
    (∀ cr', (alookup cr.queued a).isNone → dequeue debug cr a ≠ .ok cr') := by
  have h1 : (alookup cr.queued a).isSome →
      enqueue debug cr a =
        if debug then .processExit "queued already"
        else .thrown "queued already" := by
    intro h
    have : (alookup cr.queued a).isNone = false := by
      simp [Option.isNone_iff_eq_none]
      exact Option.isSome_iff_exists.1 h |>.elim fun v hv => by simp [hv]
    rw [enqueue, abortIfNot, this]
    cases debug <;> simp [Outcome.bind, bind]
  have h2 : (alookup cr.queued a).isNone →
      dequeue debug cr a =
        if debug then .processExit "not queued already"
        else .thrown "not queued already" := by
    intro h
    have : (alookup cr.queued a).isSome = false := by
      simp [Option.isNone_iff_eq_none] at h
      simp [h]
    rw [dequeue, abortIfNot, this]
    cases debug <;> simp [Outcome.bind, bind]
  refine ⟨h1, h2, ?_, ?_⟩
  · intro cr' h
    rw [h1 h]
    cases debug <;> simp
  · intro cr' h
    rw [h2 h]
    cases debug <;> simp

/-- Witness for C5: a double `enqueue` of the same address exits the
process in a debug build, and a `dequeue` on a fresh crawler throws in
a production build. -/
theorem enqueue_dequeue_contract_witness :
    enqueue true
        { mkCrawler none with queued := [("10.0.0.1:51235", .QUEUED)] }
        "10.0.0.1:51235" = .processExit "queued already" ∧
    dequeue false (mkCrawler none) "10.0.0.1:51235" =
      .thrown "not queued already" := by
  constructor
  · have h := (enqueue_dequeue_contract true
      { mkCrawler none with queued := [("10.0.0.1:51235", .QUEUED)] }
      "10.0.0.1:51235").1 (by decide)
    simpa using h
  · have h := (enqueue_dequeue_contract false (mkCrawler none)
      "10.0.0.1:51235").2.1 (by decide)
    simpa using h

/- ------------------------------------------------------------------
   C6
------------------------------------------------------------------ -/

/-- C6 (code bug): `savePeerData` only protects already-set fields when
its `defaults` flag is truthy.  In the plain two-argument form the spec
and the function's own comment describe ("We take the first view's
version we see for any key"), a later view OVERWRITES the field: after
`savePeerData(pk, {version:"A"})` then `savePeerData(pk, {version:"B"})`
the consolidated record holds `"B"`, not the first-seen `"A"` (while a
`type` field is indeed discarded). -/
theorem savePeerData_last_writer_wins :
    (alookup (savePeerData (mkCrawler none) "pk"
        [("version", .str "A"), ("type", .str "in")] false).peersData "pk" =
      some [("version", .str "A")]) ∧
    (alookup (savePeerData
        (savePeerData (mkCrawler none) "pk"
          [("version", .str "A"), ("type", .str "in")] false)
        "pk" [("version", .str "B")] false).peersData "pk" =
      some [("version", .str "B")]) := by
  exact ⟨rfl, rfl⟩

/- ------------------------------------------------------------------
   Effect characterizations of the synchronous sub-operations, used to
   establish the traversal invariant.
------------------------------------------------------------------ -/

theorem dequeue_ok (debug : Bool) (cr : CrawlerState) (ipp : String)
    (h : (alookup cr.queued ipp).isSome) :
    dequeue debug cr ipp = .ok { cr with queued := aerase cr.queued ipp } := by
  rw [dequeue, abortIfNot, if_pos h]
  rfl

/-- Everything `enqueueIfNeeded` can do when it returns normally: all
fields except `queued` are untouched, and `queued` either is unchanged
or gains exactly one fresh QUEUED address that was absent from all
three maps. -/
theorem enqueueIfNeeded_ok_spec (debug : Bool) (cr cr' : CrawlerState)
    (a : Option String) (h : enqueueIfNeeded debug cr a = .ok cr') :
    cr'.rawResponses = cr.rawResponses ∧ cr'.errors = cr.errors ∧
    cr'.peersData = cr.peersData ∧
    cr'.currentRequests = cr.currentRequests ∧
    cr'.maxRequests = cr.maxRequests ∧
    cr'.startTime = cr.startTime ∧ cr'.endTime = cr.endTime ∧
    cr'.entryIP = cr.entryIP ∧
    (∀ b, alookup cr'.queued b = alookup cr.queued b ∨
      (alookup cr.queued b = none ∧ alookup cr'.queued b = some .QUEUED ∧
        alookup cr.rawResponses b = none ∧ alookup cr.errors b = none)) ∧
    ((cr.queued.map Prod.fst).Nodup → (cr'.queued.map Prod.fst).Nodup) := by
  have same : cr' = cr →
      cr'.rawResponses = cr.rawResponses ∧ cr'.errors = cr.errors ∧
      cr'.peersData = cr.peersData ∧
      cr'.currentRequests = cr.currentRequests ∧
      cr'.maxRequests = cr.maxRequests ∧
      cr'.startTime = cr.startTime ∧ cr'.endTime = cr.endTime ∧
      cr'.entryIP = cr.entryIP ∧
      (∀ b, alookup cr'.queued b = alookup cr.queued b ∨
        (alookup cr.queued b = none ∧ alookup cr'.queued b = some .QUEUED ∧
          alookup cr.rawResponses b = none ∧ alookup cr.errors b = none)) ∧
      ((cr.queued.map Prod.fst).Nodup → (cr'.queued.map Prod.fst).Nodup) := by
    rintro rfl
    exact ⟨rfl, rfl, rfl, rfl, rfl, rfl, rfl, rfl, fun b => Or.inl rfl, id⟩
  match a with
  | none =>
    cases h
    exact same rfl
  | some s =>
    by_cases hs : s = ""
    · rw [enqueueIfNeeded, if_pos hs] at h
      cases h
      exact same rfl
    · rw [enqueueIfNeeded, if_neg hs] at h
      rcases hguard : ((alookup cr.rawResponses s).isNone &&
          (alookup cr.queued s).isNone && (alookup cr.errors s).isNone) with _ | _
      · rw [if_neg (by simp [hguard])] at h
        cases h
        exact same rfl
      · rw [if_pos (by simp [hguard])] at h
        simp only [Bool.and_eq_true, Option.isNone_iff_eq_none] at hguard
        rw [enqueue, abortIfNot, if_pos (by simp [hguard.1.2])] at h
        have hcr' : cr' = { cr with queued := aset cr.queued s .QUEUED } := by
          cases h
          rfl
        subst hcr'
        refine ⟨rfl, rfl, rfl, rfl, rfl, rfl, rfl, rfl, ?_, ?_⟩
        · intro b
          by_cases hb : b = s
          · subst hb
            exact Or.inr ⟨hguard.1.2, alookup_aset _ _ _, hguard.1.1, hguard.2⟩
          · exact Or.inl (alookup_aset_ne _ _ _ _ fun he => hb he.symm)
        · intro hnd
          exact aset_nodup _ _ _ hnd

/-- Everything the peer-discovery loop can do when it returns normally:
only `queued` (fresh QUEUED addresses) and the leaked global change. -/
theorem processPeers_spec (debug : Bool) (ps : List Peer) (s s' : Sys)
    (h : processPeers debug ps s = .ok s') :
    s'.cr.rawResponses = s.cr.rawResponses ∧ s'.cr.errors = s.cr.errors ∧
    s'.cr.peersData = s.cr.peersData ∧
    s'.cr.currentRequests = s.cr.currentRequests ∧
    s'.cr.maxRequests = s.cr.maxRequests ∧
    s'.cr.startTime = s.cr.startTime ∧ s'.cr.endTime = s.cr.endTime ∧
    s'.cr.entryIP = s.cr.entryIP ∧
    s'.inflight = s.inflight ∧ s'.clock = s.clock ∧
    s'.doneEvents = s.doneEvents ∧
    (∀ b, alookup s'.cr.queued b = alookup s.cr.queued b ∨
      (alookup s.cr.queued b = none ∧ alookup s'.cr.queued b = some .QUEUED ∧
        alookup s.cr.rawResponses b = none ∧ alookup s.cr.errors b = none)) ∧
    ((s.cr.queued.map Prod.fst).Nodup → (s'.cr.queued.map Prod.fst).Nodup) := by
  induction ps generalizing s with
  | nil =>
    cases h
    exact ⟨rfl, rfl, rfl, rfl, rfl, rfl, rfl, rfl, rfl, rfl, rfl,
      fun b => Or.inl rfl, id⟩
  | cons p ps ih =>
    rw [processPeers] at h
    rcases hr : (normalizeIpp p.ip p.port s.globalIpp).1 with m | ippStr
    · rw [hr] at h
      cases h
    · rw [hr] at h
      dsimp only at h
      rcases henq : enqueueIfNeeded debug s.cr (some ippStr) with cr1 | m | m
      · rw [henq] at h
        obtain ⟨e1, e2, e3, e4, e5, e6, e7, e8, hq, hnd⟩ :=
          enqueueIfNeeded_ok_spec debug s.cr cr1 (some ippStr) henq
        set s1 : Sys :=
          { s with cr := cr1, globalIpp := (normalizeIpp p.ip p.port s.globalIpp).2 }
          with hs1
        obtain ⟨f1, f2, f3, f4, f5, f6, f7, f8, f9, f10, f11, fq, fnd⟩ :=
          ih s1 h
        refine ⟨f1.trans e1, f2.trans e2, f3.trans e3, f4.trans e4,
          f5.trans e5, f6.trans e6, f7.trans e7, f8.trans e8, f9, f10, f11,
          ?_, fun hn => fnd (hnd hn)⟩
        intro b
        rcases fq b with hfb | ⟨hfb1, hfb2, hfb3, hfb4⟩
        · rcases hq b with heb | ⟨heb1, heb2, heb3, heb4⟩
          · exact Or.inl (hfb.trans heb)
          · exact Or.inr ⟨heb1, hfb.trans heb2, heb3, heb4⟩
        · rcases hq b with heb | ⟨heb1, heb2, heb3, heb4⟩
          · refine Or.inr ⟨heb.symm.trans hfb1, hfb2, ?_, ?_⟩
            · exact e1 ▸ hfb3
            · exact e2 ▸ hfb4
          · rw [heb2] at hfb1
            cases hfb1
      · rw [henq] at h
        cases h
      · rw [henq] at h
        cases h

/-- Everything the admission loop of `requestMore` can do: the queue's
key set is untouched, some QUEUED addresses become REQUESTING, each
admitted address is appended to the in-flight list (with the counter
incremented in lockstep), admitted addresses were QUEUED in the
starting state and are pairwise distinct, and the counter never passes
the cap because it is re-checked before every admission. -/
theorem admitLoop_spec (hops : Nat) (keys : List String) (s : Sys) :
    (admitLoop hops keys s).cr.rawResponses = s.cr.rawResponses ∧
    (admitLoop hops keys s).cr.errors = s.cr.errors ∧
    (admitLoop hops keys s).cr.peersData = s.cr.peersData ∧
    (admitLoop hops keys s).cr.maxRequests = s.cr.maxRequests ∧
    (admitLoop hops keys s).cr.startTime = s.cr.startTime ∧
    (admitLoop hops keys s).cr.endTime = s.cr.endTime ∧
    (admitLoop hops keys s).cr.entryIP = s.cr.entryIP ∧
    (admitLoop hops keys s).globalIpp = s.globalIpp ∧
    (admitLoop hops keys s).clock = s.clock ∧
    (admitLoop hops keys s).doneEvents = s.doneEvents ∧
    (admitLoop hops keys s).cr.queued.map Prod.fst =
      s.cr.queued.map Prod.fst ∧
    (∀ a, alookup (admitLoop hops keys s).cr.queued a =
        alookup s.cr.queued a ∨
      (alookup s.cr.queued a = some .QUEUED ∧
        alookup (admitLoop hops keys s).cr.queued a = some .REQUESTING)) ∧
    (∃ delta : List (String × Nat),
      (admitLoop hops keys s).inflight = s.inflight ++ delta ∧
      (admitLoop hops keys s).cr.currentRequests =
        s.cr.currentRequests + delta.length ∧
      (delta.map Prod.fst).Nodup ∧
      (∀ p ∈ delta, alookup s.cr.queued p.1 = some ReqStatus.QUEUED) ∧
      (∀ p ∈ delta, alookup (admitLoop hops keys s).cr.queued p.1 =
        some ReqStatus.REQUESTING)) ∧
    (s.cr.currentRequests ≤ s.cr.maxRequests →
      (admitLoop hops keys s).cr.currentRequests ≤ s.cr.maxRequests) := by
  induction keys generalizing s with
  | nil =>
    refine ⟨rfl, rfl, rfl, rfl, rfl, rfl, rfl, rfl, rfl, rfl, rfl,
      fun a => Or.inl rfl,
      ⟨[], by simp [admitLoop], by simp [admitLoop], by simp, by simp, by simp⟩,
      fun h => h⟩
  | cons k rest ih =>
    by_cases hg : s.cr.currentRequests < s.cr.maxRequests ∧
        alookup s.cr.queued k = some .QUEUED
    · have hstep : admitLoop hops (k :: rest) s =
          admitLoop hops rest (crawlStep k hops s) := by
        rw [admitLoop, if_pos hg]
      rw [hstep]
      obtain ⟨f1, f2, f3, f4, f5, f6, f7, f8, f9, f10, f11, fq, fd, fc⟩ :=
        ih (crawlStep k hops s)
      have hq1 : ∀ a, alookup (crawlStep k hops s).cr.queued a =
          if a = k then some .REQUESTING else alookup s.cr.queued a := by
        intro a
        by_cases ha : a = k
        · subst ha
          simp [crawlStep, alookup_aset]
        · simp [crawlStep, ha, alookup_aset_ne _ _ _ _ fun he => ha he.symm]
      refine ⟨f1, f2, f3, f4, f5, f6, f7, f8, f9, f10, ?_, ?_, ?_, ?_⟩
      · rw [f11]
        exact aset_keys_of_mem _ _ _ (by simp [hg.2])
      · intro a
        rcases fq a with hfa | ⟨hfa1, hfa2⟩
        · rw [hfa, hq1 a]
          by_cases ha : a = k
          · subst ha
            exact Or.inr ⟨hg.2, by simp⟩
          · rw [if_neg ha]
            exact Or.inl rfl
        · rw [hq1 a] at hfa1
          by_cases ha : a = k
          · rw [if_pos ha] at hfa1
            cases hfa1
          · rw [if_neg ha] at hfa1
            exact Or.inr ⟨hfa1, hfa2⟩
      · obtain ⟨delta1, hd1, hd2, hd3, hd4, hd5⟩ := fd
        refine ⟨(k, hops) :: delta1, ?_, ?_, ?_, ?_, ?_⟩
        · rw [hd1]
          simp [crawlStep]
        · rw [hd2]
          simp [crawlStep]
          ring
        · simp only [List.map_cons, List.nodup_cons]
          refine ⟨?_, hd3⟩
          intro hmem
          rcases List.mem_map.1 hmem with ⟨p, hp, hpk⟩
          have := hd4 p hp
          rw [hpk, hq1 k, if_pos rfl] at this
          cases this
        · intro p hp
          rcases List.mem_cons.1 hp with rfl | hp1
          · exact hg.2
          · have := hd4 p hp1
            rw [hq1 p.1] at this
            by_cases hpk : p.1 = k
            · rw [if_pos hpk] at this
              cases this
            · rw [if_neg hpk] at this
              exact this
        · intro p hp
          rcases List.mem_cons.1 hp with rfl | hp1
          · rcases fq k with hfk | ⟨hfk1, hfk2⟩
            · rw [hfk, hq1 k, if_pos rfl]
            · exact hfk2
          · exact hd5 p hp1
      · intro hle
        have hmax : (crawlStep k hops s).cr.maxRequests = s.cr.maxRequests := rfl
        have hcnt : (crawlStep k hops s).cr.currentRequests =
            s.cr.currentRequests + 1 := rfl
        have h1 : (crawlStep k hops s).cr.currentRequests ≤
            (crawlStep k hops s).cr.maxRequests := by
          rw [hmax, hcnt]
          exact Int.add_one_le_of_lt hg.1
        have := fc h1
        rw [hmax] at this
        exact this
    · have hstep : admitLoop hops (k :: rest) s = admitLoop hops rest s := by
        rw [admitLoop, if_neg hg]
      rw [hstep]
      exact ih s

/-- Projections of `requestMore`. -/
theorem requestMore_fst (hops : Nat) (s : Sys) :
    (requestMore hops s).1 = ((s.cr.queued.map Prod.fst).length != 0) := rfl

theorem requestMore_snd (hops : Nat) (s : Sys) :
    (requestMore hops s).2 =
      admitLoop (hops + 1) (s.cr.queued.map Prod.fst) s := rfl

/-- Destructuring a propagate-or-continue match on an `Outcome`. -/
theorem outcome_case_ok {A B : Type} (o : Outcome A) (g : A → Outcome B)
    (b : B)
    (h : (match o with
      | .processExit m => Outcome.processExit m
      | .thrown m => Outcome.thrown m
      | .ok a => g a) = .ok b) :
    ∃ a, o = .ok a ∧ g a = .ok b := by
  cases o with
  | ok a => exact ⟨a, rfl, h⟩
  | processExit m => cases h
  | thrown m => cases h

/-- Decomposition of a successful `completeStep` run: there is an
intermediate state `s3` (after decrement, dequeue and recording) from
which the final state is the admission loop's result, wrapped in the
'done' emission exactly when the queue snapshot is empty. -/
theorem completeStep_decomp (debug : Bool) (ipp : String) (hops : Nat)
    (resp : Except Int Body) (s0 s' : Sys)
    (hq : (alookup s0.cr.queued ipp).isSome)
    (h : completeStep debug ipp hops resp s0 = .ok s') :
    ∃ s3 : Sys,
      (match resp with
        | .error code => s3 = { s0 with cr := { s0.cr with
            currentRequests := s0.cr.currentRequests - 1
            queued := aerase s0.cr.queued ipp
            errors := aset s0.cr.errors ipp code } }
        | .ok body => processPeers debug body.overlay.active
            { s0 with cr := { s0.cr with
              currentRequests := s0.cr.currentRequests - 1
              queued := aerase s0.cr.queued ipp
              rawResponses := aset s0.cr.rawResponses ipp body } } =
            .ok s3) ∧
      (s3.cr.queued ≠ [] →
        s' = admitLoop (hops + 1) (s3.cr.queued.map Prod.fst) s3) ∧
      (s3.cr.queued = [] → s' = emitDone s3) := by
  have setup : ∀ s3 : Sys,
      ((if (requestMore hops s3).1 then Outcome.ok (requestMore hops s3).2
        else Outcome.ok (emitDone (requestMore hops s3).2)) = .ok s') →
      (s3.cr.queued ≠ [] →
        s' = admitLoop (hops + 1) (s3.cr.queued.map Prod.fst) s3) ∧
      (s3.cr.queued = [] → s' = emitDone s3) := by
    intro s3 h3
    constructor
    · intro hne
      have hlen : (s3.cr.queued.map Prod.fst).length ≠ 0 := by
        intro hc
        exact hne (List.map_eq_nil_iff.mp (List.length_eq_zero.mp hc))
      have hb : (requestMore hops s3).1 = true := by
        rw [requestMore_fst]
        simpa [bne_iff_ne] using hlen
      rw [if_pos hb] at h3
      cases h3
      exact (requestMore_snd hops s3).symm
    · intro he
      have hb : (requestMore hops s3).1 = false := by
        rw [requestMore_fst]
        simp [he]
      rw [hb] at h3
      rw [if_neg (by simp)] at h3
      cases h3
      rw [requestMore_snd hops s3]
      have : admitLoop (hops + 1) (s3.cr.queued.map Prod.fst) s3 = s3 := by
        rw [he]
        rfl
      rw [this]
  unfold completeStep at h
  rw [dequeue_ok debug
    { s0.cr with currentRequests := s0.cr.currentRequests - 1 } ipp hq] at h
  dsimp only at h
  cases resp with
  | error code =>
    dsimp only at h
    refine ⟨{ s0 with cr := { s0.cr with
      currentRequests := s0.cr.currentRequests - 1
      queued := aerase s0.cr.queued ipp
      errors := aset s0.cr.errors ipp code } }, rfl, setup _ ?_⟩
    exact h
  | ok body =>
    dsimp only at h
    rcases hpp : processPeers debug body.overlay.active
        (Sys.mk
          (CrawlerState.mk s0.cr.maxRequests (s0.cr.currentRequests - 1)
            (aset s0.cr.rawResponses ipp body) (aerase s0.cr.queued ipp)
            s0.cr.errors s0.cr.peersData s0.cr.startTime s0.cr.endTime
            s0.cr.entryIP)
          s0.inflight s0.globalIpp s0.clock s0.doneEvents)
      with s3 | m | m
    · rw [hpp] at h
      dsimp only at h
      exact ⟨s3, by exact hpp, setup s3 h⟩
    · rw [hpp] at h
      cases h
    · rw [hpp] at h
      cases h

/- ------------------------------------------------------------------
   The traversal invariant.
------------------------------------------------------------------ -/

/-- Invariant tying the crawler's bookkeeping together: the counter
mirrors the in-flight list, stays under the cap, every in-flight fetch
is tracked as REQUESTING in the queue map, keys are unique, queued
addresses are not yet Done, and no address is both a success and a
failure. -/
structure CrawlInv (s : Sys) : Prop where
  counter_eq : s.cr.currentRequests = (s.inflight.length : Int)
  counter_le : s.cr.currentRequests ≤ s.cr.maxRequests
  max_pos : 1 ≤ s.cr.maxRequests
  tracked : ∀ p ∈ s.inflight,
    alookup s.cr.queued p.1 = some ReqStatus.REQUESTING
  infl_nodup : (s.inflight.map Prod.fst).Nodup
  q_nodup : (s.cr.queued.map Prod.fst).Nodup
  raw_nodup : (s.cr.rawResponses.map Prod.fst).Nodup
  err_nodup : (s.cr.errors.map Prod.fst).Nodup
  q_not_done : ∀ a, (alookup s.cr.queued a).isSome →
    alookup s.cr.rawResponses a = none ∧ alookup s.cr.errors a = none
  raw_err_disj : ∀ a, (alookup s.cr.rawResponses a).isSome →
    alookup s.cr.errors a = none

/-- In a keyset-unique in-flight list, the entries left after erasing a
member have keys different from the erased member's key. -/
theorem erase_key_ne {l : List (String × Nat)}
    (hnd : (l.map Prod.fst).Nodup) {x : String × Nat} (hx : x ∈ l)
    {p : String × Nat} (hp : p ∈ l.erase x) : p.1 ≠ x.1 := by
  have hl : l.Nodup := hnd.of_map Prod.fst
  have hpx : p ≠ x ∧ p ∈ l := (List.Nodup.mem_erase_iff hl).1 hp
  intro he
  exact hpx.1 (List.inj_on_of_nodup_map hnd hpx.2 hx he)

theorem inv_emitDone {s : Sys} (hinv : CrawlInv s) : CrawlInv (emitDone s) where
  counter_eq := hinv.counter_eq
  counter_le := hinv.counter_le
  max_pos := hinv.max_pos
  tracked := hinv.tracked
  infl_nodup := hinv.infl_nodup
  q_nodup := hinv.q_nodup
  raw_nodup := hinv.raw_nodup
  err_nodup := hinv.err_nodup
  q_not_done := hinv.q_not_done
  raw_err_disj := hinv.raw_err_disj

theorem inv_admitLoop {s : Sys} (hops : Nat) (keys : List String)
    (hinv : CrawlInv s) : CrawlInv (admitLoop hops keys s) := by
  obtain ⟨f1, f2, f3, f4, f5, f6, f7, f8, f9, f10, f11, fq, fd, fc⟩ :=
    admitLoop_spec hops keys s
  obtain ⟨delta, hd1, hd2, hd3, hd4, hd5⟩ := fd
  refine ⟨?_, ?_, ?_, ?_, ?_, ?_, ?_, ?_, ?_, ?_⟩
  · rw [hd2, hd1, hinv.counter_eq]
    push_cast [List.length_append]
    ring
  · rw [f4]
    exact fc hinv.counter_le
  · rw [f4]
    exact hinv.max_pos
  · intro p hp
    rw [hd1] at hp
    rcases List.mem_append.1 hp with hp1 | hp1
    · have hreq := hinv.tracked p hp1
      rcases fq p.1 with hfa | ⟨hfa1, _⟩
      · rw [hfa]
        exact hreq
      · rw [hreq] at hfa1
        cases hfa1
    · exact hd5 p hp1
  · rw [hd1, List.map_append]
    rw [List.nodup_append]
    refine ⟨hinv.infl_nodup, hd3, ?_⟩
    intro a ha1 ha2
    rcases List.mem_map.1 ha1 with ⟨p, hp, rfl⟩
    rcases List.mem_map.1 ha2 with ⟨q, hq2, hqk⟩
    have h1 := hinv.tracked p hp
    have h2 := hd4 q hq2
    rw [hqk] at h2
    rw [h1] at h2
    cases h2
  · rw [f11]
    exact hinv.q_nodup
  · rw [f1]
    exact hinv.raw_nodup
  · rw [f2]
    exact hinv.err_nodup
  · intro a ha
    rw [f1, f2]
    have hmem : a ∈ (admitLoop hops keys s).cr.queued.map Prod.fst :=
      mem_keys_of_alookup_isSome _ _ ha
    rw [f11] at hmem
    exact hinv.q_not_done a (alookup_isSome_of_mem_keys _ _ hmem)
  · intro a ha
    rw [f2]
    rw [f1] at ha
    exact hinv.raw_err_disj a ha

theorem inv_processPeers {debug : Bool} {ps : List Peer} {s s' : Sys}
    (hinv : CrawlInv s) (h : processPeers debug ps s = .ok s') :
    CrawlInv s' := by
  obtain ⟨f1, f2, f3, f4, f5, f6, f7, f8, f9, f10, f11, fq, fnd⟩ :=
    processPeers_spec debug ps s s' h
  refine ⟨?_, ?_, ?_, ?_, ?_, ?_, ?_, ?_, ?_, ?_⟩
  · rw [f4, f9]
    exact hinv.counter_eq
  · rw [f4, f5]
    exact hinv.counter_le
  · rw [f5]
    exact hinv.max_pos
  · intro p hp
    rw [f9] at hp
    have hreq := hinv.tracked p hp
    rcases fq p.1 with hfa | ⟨hfa1, _⟩
    · rw [hfa]
      exact hreq
    · rw [hreq] at hfa1
      cases hfa1
  · rw [f9]
    exact hinv.infl_nodup
  · exact fnd hinv.q_nodup
  · rw [f1]
    exact hinv.raw_nodup
  · rw [f2]
    exact hinv.err_nodup
  · intro a ha
    rw [f1, f2]
    rcases fq a with hfa | ⟨_, _, hfa3, hfa4⟩
    · rw [hfa] at ha
      exact hinv.q_not_done a ha
    · exact ⟨hfa3, hfa4⟩
  · intro a ha
    rw [f2]
    rw [f1] at ha
    exact hinv.raw_err_disj a ha

/-- The invariant holds for the intermediate state of a completion
event (counter decremented, in-flight entry erased, address dequeued,
failure recorded). -/
theorem inv_record_error (s : Sys) (ipp : String) (hops : Nat) (code : Int)
    (hinv : CrawlInv s) (hmem : (ipp, hops) ∈ s.inflight) :
    CrawlInv { s with
      inflight := s.inflight.erase (ipp, hops)
      cr := { s.cr with
        currentRequests := s.cr.currentRequests - 1
        queued := aerase s.cr.queued ipp
        errors := aset s.cr.errors ipp code } } := by
  have hlen : 1 ≤ s.inflight.length := List.length_pos_of_mem hmem
  have hreq := hinv.tracked _ hmem
  refine ⟨?_, ?_, ?_, ?_, ?_, ?_, ?_, ?_, ?_, ?_⟩
  · show s.cr.currentRequests - 1 =
      ((s.inflight.erase (ipp, hops)).length : Int)
    rw [hinv.counter_eq, List.length_erase_of_mem hmem]
    rw [Nat.cast_sub hlen]
    rfl
  · show s.cr.currentRequests - 1 ≤ s.cr.maxRequests
    have := hinv.counter_le
    linarith
  · exact hinv.max_pos
  · intro p hp
    have hp1 := List.mem_of_mem_erase hp
    have hne := erase_key_ne hinv.infl_nodup hmem hp
    show alookup (aerase s.cr.queued ipp) p.1 = some ReqStatus.REQUESTING
    rw [alookup_aerase_ne _ _ _ fun he => hne he.symm]
    exact hinv.tracked p hp1
  · exact ((s.inflight.erase_sublist (ipp, hops)).map Prod.fst).nodup
      hinv.infl_nodup
  · exact aerase_nodup _ _ hinv.q_nodup
  · exact hinv.raw_nodup
  · exact aset_nodup _ _ _ hinv.err_nodup
  · intro a ha
    show alookup s.cr.rawResponses a = none ∧
      alookup (aset s.cr.errors ipp code) a = none
    by_cases hai : a = ipp
    · subst hai
      rw [alookup_aerase _ _ hinv.q_nodup] at ha
      cases ha
    · rw [show (alookup (aerase s.cr.queued ipp) a).isSome =
          (alookup s.cr.queued a).isSome by
        rw [alookup_aerase_ne _ _ _ fun he => hai he.symm]] at ha
      have := hinv.q_not_done a ha
      exact ⟨this.1, by
        rw [alookup_aset_ne _ _ _ _ fun he => hai he.symm]
        exact this.2⟩
  · intro a ha
    show alookup (aset s.cr.errors ipp code) a = none
    by_cases hai : a = ipp
    · subst hai
      have := (hinv.q_not_done a (by rw [hreq]; rfl)).1
      rw [this] at ha
      cases ha
    · rw [alookup_aset_ne _ _ _ _ fun he => hai he.symm]
      exact hinv.raw_err_disj a ha

/-- Same, for a success: the raw body is recorded instead. -/
theorem inv_record_ok (s : Sys) (ipp : String) (hops : Nat) (body : Body)
    (hinv : CrawlInv s) (hmem : (ipp, hops) ∈ s.inflight) :
    CrawlInv { s with
      inflight := s.inflight.erase (ipp, hops)
      cr := { s.cr with
        currentRequests := s.cr.currentRequests - 1
        queued := aerase s.cr.queued ipp
        rawResponses := aset s.cr.rawResponses ipp body } } := by
  have hlen : 1 ≤ s.inflight.length := List.length_pos_of_mem hmem
  have hreq := hinv.tracked _ hmem
  refine ⟨?_, ?_, ?_, ?_, ?_, ?_, ?_, ?_, ?_, ?_⟩
  · show s.cr.currentRequests - 1 =
      ((s.inflight.erase (ipp, hops)).length : Int)
    rw [hinv.counter_eq, List.length_erase_of_mem hmem]
    rw [Nat.cast_sub hlen]
    rfl
  · show s.cr.currentRequests - 1 ≤ s.cr.maxRequests
    have := hinv.counter_le
    linarith
  · exact hinv.max_pos
  · intro p hp
    have hp1 := List.mem_of_mem_erase hp
    have hne := erase_key_ne hinv.infl_nodup hmem hp
    show alookup (aerase s.cr.queued ipp) p.1 = some ReqStatus.REQUESTING
    rw [alookup_aerase_ne _ _ _ fun he => hne he.symm]
    exact hinv.tracked p hp1
  · exact ((s.inflight.erase_sublist (ipp, hops)).map Prod.fst).nodup
      hinv.infl_nodup
  · exact aerase_nodup _ _ hinv.q_nodup
  · exact aset_nodup _ _ _ hinv.raw_nodup
  · exact hinv.err_nodup
  · intro a ha
    show alookup (aset s.cr.rawResponses ipp body) a = none ∧
      alookup s.cr.errors a = none
    by_cases hai : a = ipp
    · subst hai
      rw [alookup_aerase _ _ hinv.q_nodup] at ha
      cases ha
    · rw [show (alookup (aerase s.cr.queued ipp) a).isSome =
          (alookup s.cr.queued a).isSome by
        rw [alookup_aerase_ne _ _ _ fun he => hai he.symm]] at ha
      have := hinv.q_not_done a ha
      exact ⟨by
        rw [alookup_aset_ne _ _ _ _ fun he => hai he.symm]
        exact this.1, this.2⟩
  · intro a ha
    show alookup s.cr.errors a = none
    by_cases hai : a = ipp
    · subst hai
      exact (hinv.q_not_done a (by rw [hreq]; rfl)).2
    · rw [show (alookup (aset s.cr.rawResponses ipp body) a).isSome =
          (alookup s.cr.rawResponses a).isSome by
        rw [alookup_aset_ne _ _ _ _ fun he => hai he.symm]] at ha
      exact hinv.raw_err_disj a ha

theorem inv_init (m : Option Nat) (e : String) :
    CrawlInv (enter e (initSys m)) := by
  have hmax : (1 : Int) ≤ (mkCrawler m).maxRequests := by
    cases m with
    | none => norm_num [mkCrawler]
    | some v =>
      by_cases hv : v = 0
      · norm_num [mkCrawler, hv]
      · simp only [mkCrawler, ne_eq, hv, not_false_eq_true, if_true]
        exact_mod_cast Nat.one_le_iff_ne_zero.2 hv
  refine ⟨?_, ?_, ?_, ?_, ?_, ?_, ?_, ?_, ?_, ?_⟩
  · show (0 : Int) + 1 = ((List.length (([] : List (String × Nat)) ++
      [(withDefaultPort e, 0)]) : Nat) : Int)
    norm_num
  · show (0 : Int) + 1 ≤ (mkCrawler m).maxRequests
    simpa using hmax
  · exact hmax
  · intro p hp
    simp only [enter, crawlStep, initSys, List.nil_append,
      List.mem_singleton] at hp
    subst hp
    show alookup (aset (mkCrawler m).queued (withDefaultPort e)
      ReqStatus.REQUESTING) (withDefaultPort e) = some ReqStatus.REQUESTING
    exact alookup_aset _ _ _
  · show ((([] : List (String × Nat)) ++
      [(withDefaultPort e, 0)]).map Prod.fst).Nodup
    simp
  · show ((aset (mkCrawler m).queued (withDefaultPort e)
      ReqStatus.REQUESTING).map Prod.fst).Nodup
    simp [mkCrawler, aset]
  · show (([] : List (String × Body)).map Prod.fst).Nodup
    simp
  · show (([] : List (String × Int)).map Prod.fst).Nodup
    simp
  · intro a _
    exact ⟨rfl, rfl⟩
  · intro a ha
    cases ha

theorem inv_step {debug : Bool} {s s' : Sys} (hinv : CrawlInv s)
    (hstep : SysStep debug s s') : CrawlInv s' := by
  rcases hstep with ⟨ipp, hops, resp, _, _, hmem, hok⟩
  have hq : (alookup
      ({ s with inflight := s.inflight.erase (ipp, hops) } : Sys).cr.queued
      ipp).isSome := by
    show (alookup s.cr.queued ipp).isSome
    rw [hinv.tracked _ hmem]
    rfl
  obtain ⟨s3, hrec, hne, hemp⟩ :=
    completeStep_decomp debug ipp hops resp _ s' hq hok
  have hinv3 : CrawlInv s3 := by
    cases resp with
    | error code =>
      rw [hrec]
      exact inv_record_error s ipp hops code hinv hmem
    | ok body =>
      exact inv_processPeers (inv_record_ok s ipp hops body hinv hmem) hrec
  by_cases hqe : s3.cr.queued = []
  · rw [hemp hqe]
    exact inv_emitDone hinv3
  · rw [hne hqe]
    exact inv_admitLoop _ _ hinv3

theorem reachable_inv {debug : Bool} {m : Option Nat} {e : String} {s : Sys}
    (h : Reachable debug m e s) : CrawlInv s := by
  induction h with
  | start => exact inv_init m e
  | step _ hstep ih => exact inv_step ih hstep

/- ------------------------------------------------------------------
   C7
------------------------------------------------------------------ -/

/-- C7: in every state of a traversal the count of outstanding fetches
`currentRequests` never exceeds the configured cap `maxRequests` (the
counter is compared against the cap before every admission in
`requestMore`), and with a cap of 1 at most one fetch is outstanding at
any instant. -/
theorem currentRequests_le_maxRequests (debug : Bool) (m : Option Nat)
    (e : String) (s : Sys) (h : Reachable debug m e s) :
    s.cr.currentRequests ≤ s.cr.maxRequests ∧
    (s.cr.maxRequests = 1 → s.inflight.length ≤ 1) := by
  have hinv := reachable_inv h
  refine ⟨hinv.counter_le, ?_⟩
  intro h1
  have hle := hinv.counter_le
  rw [hinv.counter_eq, h1] at hle
  exact_mod_cast hle

/-- Witness for C7: the state right after entering at `"10.0.0.1"` with
a configured cap of 1. -/
theorem currentRequests_le_maxRequests_witness :
    (enter "10.0.0.1" (initSys (some 1))).cr.currentRequests ≤
      (enter "10.0.0.1" (initSys (some 1))).cr.maxRequests ∧
    ((enter "10.0.0.1" (initSys (some 1))).cr.maxRequests = 1 →
      (enter "10.0.0.1" (initSys (some 1))).inflight.length ≤ 1) :=
  currentRequests_le_maxRequests true (some 1) "10.0.0.1" _ Reachable.start

/- ------------------------------------------------------------------
   C9
------------------------------------------------------------------ -/

/-- C9: a completion turn finalizes the traversal exactly when the
queue snapshot is empty: then nothing remains in flight, `endTime` is
recorded, and a 'done' event is emitted whose payload is precisely
`{ start, end, entry, data := rawResponses, errors }` of the final
state; a completion with a non-empty snapshot emits nothing and leaves
`endTime` unset. -/
theorem crawl_finalization (debug : Bool) (m : Option Nat) (e : String)
    (s s' : Sys) (hr : Reachable debug m e s) (hs : SysStep debug s s') :
    (s'.cr.queued = [] →
      s'.inflight = [] ∧ (∃ t, s'.cr.endTime = some t) ∧
      s'.doneEvents = s.doneEvents ++
        [{ start := s'.cr.startTime, endT := s'.cr.endTime,
           entry := s'.cr.entryIP, data := s'.cr.rawResponses,
           errors := s'.cr.errors }]) ∧
    (s'.cr.queued ≠ [] →
      s'.doneEvents = s.doneEvents ∧ s'.cr.endTime = s.cr.endTime) := by
  have hinv := reachable_inv hr
  rcases hs with ⟨ipp, hops, resp, _, _, hmem, hok⟩
  have hq : (alookup
      ({ s with inflight := s.inflight.erase (ipp, hops) } : Sys).cr.queued
      ipp).isSome := by
    show (alookup s.cr.queued ipp).isSome
    rw [hinv.tracked _ hmem]
    rfl
  obtain ⟨s3, hrec, hne, hemp⟩ :=
    completeStep_decomp debug ipp hops resp _ s' hq hok
  have hinv3 : CrawlInv s3 := by
    cases resp with
    | error code =>
      rw [hrec]
      exact inv_record_error s ipp hops code hinv hmem
    | ok body =>
      exact inv_processPeers (inv_record_ok s ipp hops body hinv hmem) hrec
  have h3done : s3.doneEvents = s.doneEvents := by
    cases resp with
    | error code => rw [hrec]
    | ok body => exact (processPeers_spec _ _ _ _ hrec).2.2.2.2.2.2.2.2.2.2.1
  have h3end : s3.cr.endTime = s.cr.endTime := by
    cases resp with
    | error code => rw [hrec]
    | ok body => exact (processPeers_spec _ _ _ _ hrec).2.2.2.2.2.2.1
  by_cases hqe : s3.cr.queued = []
  · have hs' : s' = emitDone s3 := hemp hqe
    have hq' : s'.cr.queued = [] := by
      rw [hs']
      exact hqe
    constructor
    · intro _
      refine ⟨?_, ⟨s3.clock, by rw [hs']; rfl⟩, ?_⟩
      · rw [hs']
        show s3.inflight = []
        rcases hi : s3.inflight with _ | ⟨p, t⟩
        · rfl
        · have := hinv3.tracked p (by rw [hi]; exact List.mem_cons_self p t)
          rw [hqe] at this
          cases this
      · rw [hs']
        show s3.doneEvents ++ [mkReport { s3.cr with endTime := some s3.clock }]
          = s.doneEvents ++ [_]
        rw [h3done]
        rfl
    · intro hcon
      exact absurd hq' hcon
  · have hs' : s' = admitLoop (hops + 1) (s3.cr.queued.map Prod.fst) s3 :=
      hne hqe
    obtain ⟨f1, f2, f3, f4, f5, f6, f7, f8, f9, f10, f11, _, _, _⟩ :=
      admitLoop_spec (hops + 1) (s3.cr.queued.map Prod.fst) s3
    have hq' : s'.cr.queued ≠ [] := by
      rw [hs']
      intro hcon
      apply hqe
      have : s3.cr.queued.map Prod.fst = [] := by
        rw [← f11, hcon]
        rfl
      exact List.map_eq_nil_iff.mp this
    constructor
    · intro hcon
      exact absurd hcon hq'
    · intro _
      constructor
      · rw [hs', f10, h3done]
      · rw [hs', f6, h3end]

/- ------------------------------------------------------------------
   C10
------------------------------------------------------------------ -/

/-- A `dequeue` that returns normally did find the address tracked,
and only erased it. -/
theorem dequeue_ok_inv (debug : Bool) (cr cr' : CrawlerState) (ipp : String)
    (h : dequeue debug cr ipp = .ok cr') :
    (alookup cr.queued ipp).isSome ∧
    cr' = { cr with queued := aerase cr.queued ipp } := by
  rcases hb : (alookup cr.queued ipp).isSome with _ | _
  · rw [dequeue, abortIfNot, hb] at h
    rw [if_neg (by simp)] at h
    cases debug
    · rw [if_neg (by simp)] at h
      exact absurd h (by simp [bind, Outcome.bind])
    · rw [if_pos rfl] at h
      exact absurd h (by simp [bind, Outcome.bind])
  · rw [dequeue_ok debug cr ipp hb] at h
    cases h
    exact ⟨rfl, rfl⟩

/-- A completion that runs to the end had its address tracked. -/
theorem completeStep_ok_isSome (debug : Bool) (ipp : String) (hops : Nat)
    (resp : Except Int Body) (s0 s' : Sys)
    (h : completeStep debug ipp hops resp s0 = .ok s') :
    (alookup s0.cr.queued ipp).isSome := by
  unfold completeStep at h
  rcases hdq : dequeue debug
      { s0.cr with currentRequests := s0.cr.currentRequests - 1 } ipp
    with cr2 | m | m
  · exact (dequeue_ok_inv debug _ _ ipp hdq).1
  · rw [hdq] at h
    cases h
  · rw [hdq] at h
    cases h

/-- The crawl path never touches the merged-peer-data map. -/
theorem sysStep_peersData {debug : Bool} {s s' : Sys}
    (hs : SysStep debug s s') : s'.cr.peersData = s.cr.peersData := by
  rcases hs with ⟨ipp, hops, resp, _, _, hmem, hok⟩
  have hq : (alookup
      ({ s with inflight := s.inflight.erase (ipp, hops) } : Sys).cr.queued
      ipp).isSome :=
    completeStep_ok_isSome debug ipp hops resp _ s' hok
  obtain ⟨s3, hrec, hne, hemp⟩ :=
    completeStep_decomp debug ipp hops resp _ s' hq hok
  have h3 : s3.cr.peersData = s.cr.peersData := by
    cases resp with
    | error code => rw [hrec]
    | ok body => exact (processPeers_spec _ _ _ _ hrec).2.2.1
  by_cases hqe : s3.cr.queued = []
  · rw [hemp hqe]
    exact h3
  · rw [hne hqe]
    rw [(admitLoop_spec (hops + 1) (s3.cr.queued.map Prod.fst) s3).2.2.1]
    exact h3

/- ------------------------------------------------------------------
   C10
------------------------------------------------------------------ -/

/-- C10: the traversal driven by `enter`/`crawl`/`requestMore` never
writes `peersData` (`savePeerData` has no caller on the crawl path):
in every reachable state the merged-peer map is still the constructor's
empty map, and no event-loop turn changes it — so the emitted session
report (whose only fields are start/end/entry/data/errors, see
`SessionReport` and C9) carries raw responses and errors only, no
merged peer records. -/
theorem peersData_never_written (debug : Bool) (m : Option Nat)
    (e : String) (s : Sys) (h : Reachable debug m e s) :
    s.cr.peersData = [] ∧
    (∀ s', SysStep debug s s' → s'.cr.peersData = s.cr.peersData) := by
  refine ⟨?_, fun s' hs => sysStep_peersData hs⟩
  induction h with
  | start => rfl
  | step hr hstep ih =>
    rw [sysStep_peersData hstep]
    exact ih

/-- Witness for C10 at the state entered at `"10.0.0.1"`. -/
theorem peersData_never_written_witness :
    (enter "10.0.0.1" (initSys none)).cr.peersData = [] ∧
    (∀ s', SysStep true (enter "10.0.0.1" (initSys none)) s' →
      s'.cr.peersData = (enter "10.0.0.1" (initSys none)).cr.peersData) :=
  peersData_never_written true none "10.0.0.1" _ Reachable.start

/-- The state right after entering at `"10.0.0.1"`. -/
def sStart : Sys := enter "10.0.0.1" (initSys none)

/-- The state after the entry fetch resolves with error code 7 (the
only outstanding fetch, so this turn finalizes the session). -/
def sDone : Sys :=
  match completeStep true "10.0.0.1:51235" 0 (.error 7)
      { sStart with inflight := sStart.inflight.erase ("10.0.0.1:51235", 0) }
    with
  | .ok s' => s'
  | .processExit _ => sStart
  | .thrown _ => sStart

/-- Witness for C9: completing the entry fetch with an error finds the
queue empty and emits the final report. -/
theorem crawl_finalization_witness :
    (sDone.cr.queued = [] →
      sDone.inflight = [] ∧ (∃ t, sDone.cr.endTime = some t) ∧
      sDone.doneEvents = sStart.doneEvents ++
        [{ start := sDone.cr.startTime, endT := sDone.cr.endTime,
           entry := sDone.cr.entryIP, data := sDone.cr.rawResponses,
           errors := sDone.cr.errors }]) ∧
    (sDone.cr.queued ≠ [] →
      sDone.doneEvents = sStart.doneEvents ∧
      sDone.cr.endTime = sStart.cr.endTime) :=
  crawl_finalization true none "10.0.0.1" sStart sDone Reachable.start
    (SysStep.complete "10.0.0.1:51235" 0 (.error 7) sStart sDone
      (by decide) (by decide))

/- ------------------------------------------------------------------
   NodeState (spec section 3): derived from absence/presence in the
   three tracking maps.
------------------------------------------------------------------ -/

inductive NState where
  | unseen
  | queued
  | inFlight
  | doneOk
  | doneErr
deriving DecidableEq, Repr

def nodeState (s : Sys) (a : String) : NState :=
  match alookup s.cr.rawResponses a with
  | some _ => .doneOk
  | none =>
    match alookup s.cr.errors a with
    | some _ => .doneErr
    | none =>
      match alookup s.cr.queued a with
      | some .QUEUED => .queued
      | some .REQUESTING => .inFlight
      | none => .unseen

/-- Position in the lifecycle order Unseen < Queued < InFlight < Done. -/
def NState.rank : NState → Nat
  | .unseen => 0
  | .queued => 1
  | .inFlight => 2
  | .doneOk => 3
  | .doneErr => 3

/-- How one completion turn can move each address between the maps. -/
theorem step_maps {debug : Bool} {s s' : Sys} (hinv : CrawlInv s)
    (ipp : String) (hops : Nat) (resp : Except Int Body)
    (hmem : (ipp, hops) ∈ s.inflight)
    (hok : completeStep debug ipp hops resp
      { s with inflight := s.inflight.erase (ipp, hops) } = .ok s') :
    (∀ a, a ≠ ipp →
      alookup s'.cr.rawResponses a = alookup s.cr.rawResponses a) ∧
    (∀ a, a ≠ ipp → alookup s'.cr.errors a = alookup s.cr.errors a) ∧
    (∀ a, a ≠ ipp →
      alookup s'.cr.queued a = alookup s.cr.queued a ∨
      (alookup s.cr.queued a = some .QUEUED ∧
        alookup s'.cr.queued a = some .REQUESTING) ∨
      (alookup s.cr.queued a = none ∧ alookup s.cr.rawResponses a = none ∧
        alookup s.cr.errors a = none ∧
        (alookup s'.cr.queued a = some .QUEUED ∨
          alookup s'.cr.queued a = some .REQUESTING))) ∧
    (alookup s'.cr.queued ipp = none) ∧
    (∀ code, resp = .error code →
      alookup s'.cr.errors ipp = some code ∧
      alookup s'.cr.rawResponses ipp = alookup s.cr.rawResponses ipp) ∧
    (∀ body, resp = .ok body →
      alookup s'.cr.rawResponses ipp = some body ∧
      alookup s'.cr.errors ipp = alookup s.cr.errors ipp) := by
  have hq : (alookup
      ({ s with inflight := s.inflight.erase (ipp, hops) } : Sys).cr.queued
      ipp).isSome := by
    show (alookup s.cr.queued ipp).isSome
    rw [hinv.tracked _ hmem]
    rfl
  obtain ⟨s3, hrec, hne, hemp⟩ :=
    completeStep_decomp debug ipp hops resp _ s' hq hok
  -- characterize s3 relative to s
  have h3 :
      (∀ a, a ≠ ipp →
        alookup s3.cr.rawResponses a = alookup s.cr.rawResponses a) ∧
      (∀ a, a ≠ ipp → alookup s3.cr.errors a = alookup s.cr.errors a) ∧
      (∀ a, a ≠ ipp →
        alookup s3.cr.queued a = alookup s.cr.queued a ∨
        (alookup s.cr.queued a = none ∧ alookup s.cr.rawResponses a = none ∧
          alookup s.cr.errors a = none ∧
          alookup s3.cr.queued a = some .QUEUED)) ∧
      (alookup s3.cr.queued ipp = none) ∧
      (∀ code, resp = .error code →
        alookup s3.cr.errors ipp = some code ∧
        alookup s3.cr.rawResponses ipp = alookup s.cr.rawResponses ipp) ∧
      (∀ body, resp = .ok body →
        alookup s3.cr.rawResponses ipp = some body ∧
        alookup s3.cr.errors ipp = alookup s.cr.errors ipp) := by
    cases resp with
    | error code =>
      subst hrec
      refine ⟨fun a _ => rfl, ?_, ?_, ?_, ?_, ?_⟩
      · intro a ha
        exact alookup_aset_ne _ _ _ _ fun he => ha he.symm
      · intro a ha
        exact Or.inl (alookup_aerase_ne _ _ _ fun he => ha he.symm)
      · exact alookup_aerase _ _ hinv.q_nodup
      · intro code' hc
        cases hc
        exact ⟨alookup_aset _ _ _, rfl⟩
      · intro body hb
        cases hb
    | ok body =>
      obtain ⟨f1, f2, _, _, _, _, _, _, _, _, _, fq, _⟩ :=
        processPeers_spec _ _ _ _ hrec
      refine ⟨?_, ?_, ?_, ?_, ?_, ?_⟩
      · intro a ha
        rw [f1]
        show alookup (aset s.cr.rawResponses ipp body) a = _
        exact alookup_aset_ne _ _ _ _ fun he => ha he.symm
      · intro a _
        rw [f2]
      · intro a ha
        rcases fq a with hfa | ⟨hfa1, hfa2, hfa3, hfa4⟩
        · rw [hfa]
          exact Or.inl (alookup_aerase_ne _ _ _ fun he => ha he.symm)
        · refine Or.inr ⟨?_, ?_, ?_, hfa2⟩
          · rw [show alookup s.cr.queued a =
              alookup (aerase s.cr.queued ipp) a from
                (alookup_aerase_ne _ _ _ fun he => ha he.symm).symm]
            exact hfa1
          · rw [show alookup (aset s.cr.rawResponses ipp body) a =
                alookup s.cr.rawResponses a from
              alookup_aset_ne _ _ _ _ fun he => ha he.symm] at hfa3
            exact hfa3
          · exact hfa4
      · rcases fq ipp with hfa | ⟨_, _, hfa3, _⟩
        · rw [hfa]
          exact alookup_aerase _ _ hinv.q_nodup
        · rw [show alookup (aset s.cr.rawResponses ipp body) ipp =
              some body from alookup_aset _ _ _] at hfa3
          cases hfa3
      · intro code hc
        cases hc
      · intro body' hb
        cases hb
        refine ⟨?_, ?_⟩
        · rw [f1]
          exact alookup_aset _ _ _
        · rw [f2]
  obtain ⟨g1, g2, g3, g4, g5, g6⟩ := h3
  by_cases hqe : s3.cr.queued = []
  · have hs' : s' = emitDone s3 := hemp hqe
    subst hs'
    refine ⟨g1, g2, ?_, g4, g5, g6⟩
    intro a ha
    rcases g3 a ha with hga | ⟨hga1, hga2, hga3, hga4⟩
    · exact Or.inl hga
    · exact Or.inr (Or.inr ⟨hga1, hga2, hga3, Or.inl hga4⟩)
  · have hs' : s' = admitLoop (hops + 1) (s3.cr.queued.map Prod.fst) s3 :=
      hne hqe
    subst hs'
    obtain ⟨f1, f2, _, _, _, _, _, _, _, _, f11, fq, _, _⟩ :=
      admitLoop_spec (hops + 1) (s3.cr.queued.map Prod.fst) s3
    refine ⟨?_, ?_, ?_, ?_, ?_, ?_⟩
    · intro a ha
      rw [f1]
      exact g1 a ha
    · intro a ha
      rw [f2]
      exact g2 a ha
    · intro a ha
      rcases fq a with hfa | ⟨hfa1, hfa2⟩
      · rcases g3 a ha with hga | ⟨hga1, hga2, hga3, hga4⟩
        · rw [hfa, hga]
          exact Or.inl rfl
        · rw [hfa]
          exact Or.inr (Or.inr ⟨hga1, hga2, hga3, Or.inl hga4⟩)
      · rcases g3 a ha with hga | ⟨hga1, hga2, hga3, _⟩
        · rw [hga] at hfa1
          exact Or.inr (Or.inl ⟨hfa1, hfa2⟩)
        · exact Or.inr (Or.inr ⟨hga1, hga2, hga3, Or.inr hfa2⟩)
    · rcases fq ipp with hfa | ⟨hfa1, _⟩
      · rw [hfa]
        exact g4
      · rw [g4] at hfa1
        cases hfa1
    · intro code hc
      obtain ⟨hg1, hg2⟩ := g5 code hc
      exact ⟨by rw [f2]; exact hg1, by rw [f1]; exact hg2⟩
    · intro body hb
      obtain ⟨hg1, hg2⟩ := g6 body hb
      exact ⟨by rw [f1]; exact hg1, by rw [f2]; exact hg2⟩

/-- C8 (amended): per event-loop turn, every tracked address only
advances along the lifecycle order Unseen ≤ Queued ≤ InFlight ≤ Done
(never backwards), an address that reached Done(success)/Done(failure)
keeps exactly that state forever (no re-entry into Queued/InFlight),
and Done is reached within a turn only by the completing address,
which was InFlight.  (The entry address, however, never passes through
Queued: `enter` marks it REQUESTING directly — see the
counterexample.) -/
theorem nodeState_lifecycle (debug : Bool) (m : Option Nat) (e : String)
    (s s' : Sys) (hr : Reachable debug m e s) (hs : SysStep debug s s')
    (a : String) :
    (nodeState s a).rank ≤ (nodeState s' a).rank ∧
    (nodeState s a = .doneOk → nodeState s' a = .doneOk) ∧
    (nodeState s a = .doneErr → nodeState s' a = .doneErr) ∧
    ((nodeState s' a = .doneOk ∨ nodeState s' a = .doneErr) →
      nodeState s a = .inFlight ∨ nodeState s a = nodeState s' a) := by
  have hinv := reachable_inv hr
  rcases hs with ⟨ipp, hops, resp, _, _, hmem, hok⟩
  obtain ⟨m1, m2, m3, m4, m5, m6⟩ := step_maps hinv ipp hops resp hmem hok
  by_cases ha : a = ipp
  · subst ha
    have htr := hinv.tracked _ hmem
    have hnd := hinv.q_not_done a (by rw [htr]; rfl)
    have hS : nodeState s a = .inFlight := by
      simp [nodeState, hnd.1, hnd.2, htr]
    cases resp with
    | error code =>
      obtain ⟨he1, he2⟩ := m5 code rfl
      have he2' : alookup s'.cr.rawResponses a = none := by
        rw [he2, hnd.1]
      have hS' : nodeState s' a = .doneErr := by
        simp [nodeState, he1, he2']
      rw [hS, hS']
      refine ⟨by decide, by decide, by decide, fun _ => Or.inl rfl⟩
    | ok body =>
      obtain ⟨ho1, _⟩ := m6 body rfl
      have hS' : nodeState s' a = .doneOk := by
        simp [nodeState, ho1]
      rw [hS, hS']
      refine ⟨by decide, by decide, by decide, fun _ => Or.inl rfl⟩
  · have e1 := m1 a ha
    have e2 := m2 a ha
    rcases hraw : alookup s.cr.rawResponses a with _ | b
    · rcases herr : alookup s.cr.errors a with _ | c
      · have e1' : alookup s'.cr.rawResponses a = none := by rw [e1, hraw]
        have e2' : alookup s'.cr.errors a = none := by rw [e2, herr]
        rcases hqd : alookup s.cr.queued a with _ | v
        · have hS : nodeState s a = .unseen := by
            simp [nodeState, hraw, herr, hqd]
          rcases m3 a ha with hq' | ⟨hq1, _⟩ | ⟨_, _, _, hq4 | hq4⟩
          · rw [hqd] at hq'
            have hS' : nodeState s' a = .unseen := by
              simp [nodeState, e1', e2', hq']
            rw [hS, hS']
            refine ⟨by decide, by decide, by decide, fun hcon => by
              rcases hcon with hcon | hcon <;> cases hcon⟩
          · rw [hqd] at hq1
            cases hq1
          · have hS' : nodeState s' a = .queued := by
              simp [nodeState, e1', e2', hq4]
            rw [hS, hS']
            refine ⟨by decide, by decide, by decide, fun hcon => by
              rcases hcon with hcon | hcon <;> cases hcon⟩
          · have hS' : nodeState s' a = .inFlight := by
              simp [nodeState, e1', e2', hq4]
            rw [hS, hS']
            refine ⟨by decide, by decide, by decide, fun hcon => by
              rcases hcon with hcon | hcon <;> cases hcon⟩
        · cases v with
          | QUEUED =>
            have hS : nodeState s a = .queued := by
              simp [nodeState, hraw, herr, hqd]
            rcases m3 a ha with hq' | ⟨_, hq2⟩ | ⟨hq1, _⟩
            · rw [hqd] at hq'
              have hS' : nodeState s' a = .queued := by
                simp [nodeState, e1', e2', hq']
              rw [hS, hS']
              refine ⟨by decide, by decide, by decide, fun hcon => by
                rcases hcon with hcon | hcon <;> cases hcon⟩
            · have hS' : nodeState s' a = .inFlight := by
                simp [nodeState, e1', e2', hq2]
              rw [hS, hS']
              refine ⟨by decide, by decide, by decide, fun hcon => by
                rcases hcon with hcon | hcon <;> cases hcon⟩
            · rw [hqd] at hq1
              cases hq1
          | REQUESTING =>
            have hS : nodeState s a = .inFlight := by
              simp [nodeState, hraw, herr, hqd]
            rcases m3 a ha with hq' | ⟨hq1, _⟩ | ⟨hq1, _⟩
            · rw [hqd] at hq'
              have hS' : nodeState s' a = .inFlight := by
                simp [nodeState, e1', e2', hq']
              rw [hS, hS']
              refine ⟨by decide, by decide, by decide, fun hcon => by
                rcases hcon with hcon | hcon <;> cases hcon⟩
            · rw [hqd] at hq1
              cases hq1
            · rw [hqd] at hq1
              cases hq1
      · have hS : nodeState s a = .doneErr := by
          simp [nodeState, hraw, herr]
        have e1' : alookup s'.cr.rawResponses a = none := by rw [e1, hraw]
        have e2' : alookup s'.cr.errors a = some c := by rw [e2, herr]
        have hS' : nodeState s' a = .doneErr := by
          simp [nodeState, e1', e2']
        rw [hS, hS']
        refine ⟨by decide, by decide, by decide, fun _ => Or.inr rfl⟩
    · have hS : nodeState s a = .doneOk := by
        simp [nodeState, hraw]
      have e1' : alookup s'.cr.rawResponses a = some b := by rw [e1, hraw]
      have hS' : nodeState s' a = .doneOk := by
        simp [nodeState, e1']
      rw [hS, hS']
      refine ⟨by decide, by decide, by decide, fun _ => Or.inr rfl⟩

/-- Counterexample to C8 as stated: the entry address is tracked by the
controller but skips the Queued stage entirely — `enter` takes it
straight from Unseen (absent from all maps) to InFlight
(`crawl` marks it REQUESTING without ever marking it QUEUED). -/
theorem entry_skips_queued :
    nodeState (initSys none) "10.0.0.1:51235" = .unseen ∧
    nodeState (enter "10.0.0.1" (initSys none)) "10.0.0.1:51235" =
      .inFlight := by
  exact ⟨rfl, rfl⟩

/-- Witness for the amended C8: one concrete completion turn out of the
entry state, checked for the entry address itself. -/
theorem nodeState_lifecycle_witness :
    (nodeState sStart "10.0.0.1:51235").rank ≤
      (nodeState sDone "10.0.0.1:51235").rank ∧
    (nodeState sStart "10.0.0.1:51235" = .doneOk →
      nodeState sDone "10.0.0.1:51235" = .doneOk) ∧
    (nodeState sStart "10.0.0.1:51235" = .doneErr →
      nodeState sDone "10.0.0.1:51235" = .doneErr) ∧
    ((nodeState sDone "10.0.0.1:51235" = .doneOk ∨
      nodeState sDone "10.0.0.1:51235" = .doneErr) →
      nodeState sStart "10.0.0.1:51235" = .inFlight ∨
      nodeState sStart "10.0.0.1:51235" = nodeState sDone "10.0.0.1:51235") :=
  nodeState_lifecycle true none "10.0.0.1" sStart sDone Reachable.start
    (SysStep.complete "10.0.0.1:51235" 0 (.error 7) sStart sDone
      (by decide) (by decide))
    "10.0.0.1:51235"
